import Mathlib

/-
Verification of the SimpleRenderEngine debug inspector (src/sre/Inspector.cpp)
and the shader state header (include/SRE/Shader.hpp).

Shallow embedding conventions:
- machine real numbers (float) are modelled by rationals, since every claim
  is about exact arithmetic identities of the algorithms;
- the frame stats ring buffers (std::vector indexed modulo the capacity) are
  modelled as functions from slot index to value;
- GPU textures are identified by their creation index (the source names each
  scratch texture by the pool size at creation time);
- external collaborators (the wall clock, the renderer stats record, the
  immediate mode UI) enter as explicit inputs of the embedded operations.
-/

namespace SRE

/-- Frame Stats record: the per-frame counters read by Inspector::gui
(drawCalls, the three state change counters, and the byte totals). -/
structure RenderStats where
  drawCalls : ℚ
  stateChangesShader : ℚ
  stateChangesMaterial : ℚ
  stateChangesMesh : ℚ
  meshBytes : ℚ
  textureBytes : ℚ
  deriving DecidableEq

/-- Zero-initialized stats record (vector resize default-constructs). -/
def RenderStats.zero : RenderStats := ⟨0, 0, 0, 0, 0, 0⟩

/-- State of the Inspector object (fields of sre::Inspector used by the
claims): ring buffers for stats and frame milliseconds, the frame counter,
the wall clock bookkeeping, and the scratch texture pool. -/
structure Inspector where
  frames : ℕ
  frameCount : ℕ
  stats : ℕ → RenderStats
  milliseconds : ℕ → ℚ
  time : ℚ
  lastTick : ℚ
  usedTextures : ℕ
  offscreenTextures : List ℕ

/-- Constructor Inspector::Inspector(frames, sdlRenderer): resizes the ring
buffers (zero-filled), frameCount starts at 0, lastTick is the current clock
value. -/
def mkInspector (frames : ℕ) (t0 : ℚ) : Inspector :=
  { frames := frames
    frameCount := 0
    stats := fun _ => RenderStats.zero
    milliseconds := fun _ => 0
    time := 0
    lastTick := t0
    usedTextures := 0
    offscreenTextures := [] }

/-- Inspector::update(): resets usedTextures, captures the wall clock delta
since the previous call, advances the accumulated time, snapshots the current
stats record and the delta into slot frameCount mod frames, then increments
frameCount. The current clock value and the renderer stats record are the
external inputs of the call. -/
def update (s : Inspector) (tick : ℚ) (rs : RenderStats) : Inspector :=
  let deltaTime := tick - s.lastTick
  { s with
    usedTextures := 0
    time := s.time + deltaTime
    lastTick := tick
    stats := fun j => if j = s.frameCount % s.frames then rs else s.stats j
    milliseconds := fun j => if j = s.frameCount % s.frames then deltaTime else s.milliseconds j
    frameCount := s.frameCount + 1 }

/-- Folding a sequence of update() calls, each given by its observed clock
value and stats record. -/
def runUpdates (s : Inspector) (inputs : List (ℚ × RenderStats)) : Inspector :=
  inputs.foldl (fun s p => update s p.1 p.2) s

/-- Per-frame deltas recorded from a sequence of clock values, given the
clock value observed before the first call. -/
def deltasFrom (t0 : ℚ) : List ℚ → List ℚ
  | [] => []
  | t :: ts => (t - t0) :: deltasFrom t ts

/-- Sum accumulated by the Performance section loop of Inspector::gui over
the milliseconds buffer: sum of milliseconds[(frameCount + i) mod frames]
for i in [0, frames). -/
def msSum (s : Inspector) : ℚ :=
  ∑ i ∈ Finset.range s.frames, s.milliseconds ((s.frameCount + i) % s.frames)

/-- Running average displayed by Inspector::gui: the loop sum divided by
min(frameCount, frames), and 0 before the first frame. -/
def msAvg (s : Inspector) : ℚ :=
  if 0 < s.frameCount then msSum s / ((min s.frameCount s.frames : ℕ) : ℚ) else 0

/-- Sum of a slot-indexed buffer over all slots of the ring. -/
def slotSum (frames : ℕ) (g : ℕ → ℚ) : ℚ :=
  ∑ j ∈ Finset.range frames, g j

/-- Display index expression of the Performance loop, with C++ truncated
division semantics for the int operator %:
(-frameCount % frames + idx + frames) % frames where
idx = (frameCount + i) % frames. -/
def displaySlot (frameCount frames i : ℤ) : ℤ :=
  Int.tmod (Int.tmod (-frameCount) frames + Int.tmod (frameCount + i) frames + frames) frames

/-- Inspector::getTmpTexture(): returns the cached texture at index
usedTextures when available, otherwise creates a texture named by the
current pool size, appends it to the pool; either way usedTextures is
incremented. Textures are identified by their creation index. -/
def getTmpTexture (s : Inspector) : ℕ × Inspector :=
  if s.usedTextures < s.offscreenTextures.length then
    (s.offscreenTextures.getD s.usedTextures 0,
      { s with usedTextures := s.usedTextures + 1 })
  else
    (s.offscreenTextures.length,
      { s with
        offscreenTextures := s.offscreenTextures ++ [s.offscreenTextures.length]
        usedTextures := s.usedTextures + 1 })

/-- Sequence of n getTmpTexture() calls within one frame, collecting the
returned textures. -/
def requestN : ℕ → Inspector → List ℕ × Inspector
  | 0, s => ([], s)
  | n + 1, s =>
    let (t, s1) := getTmpTexture s
    let (ts, s2) := requestN n s1
    (t :: ts, s2)

/-- Vector of three rational components, standing in for glm::vec3. -/
structure Vec3 where
  x : ℚ
  y : ℚ
  z : ℚ
  deriving DecidableEq

/-- Center of the mesh bounding box: (bounds[1] + bounds[0]) * 0.5. -/
def boundsCenter (mn mx : Vec3) : Vec3 :=
  ⟨(mx.x + mn.x) * (1/2), (mx.y + mn.y) * (1/2), (mx.z + mn.z) * (1/2)⟩

/-- Preview offset used by Inspector::showMesh: the negated center. -/
def previewOffset (mn mx : Vec3) : Vec3 :=
  ⟨-(boundsCenter mn mx).x, -(boundsCenter mn mx).y, -(boundsCenter mn mx).z⟩

/-- Extent of the bounding box: bounds[1] - bounds[0]. -/
def meshExtent (mn mx : Vec3) : Vec3 :=
  ⟨mx.x - mn.x, mx.y - mn.y, mx.z - mn.z⟩

/-- Largest extent component: std::max of the three components. -/
def maxExtent (mn mx : Vec3) : ℚ :=
  max (max (meshExtent mn mx).x (meshExtent mn mx).y) (meshExtent mn mx).z

/-- Scale vector passed to glm::scale by Inspector::showMesh:
2 / maxS on every axis. -/
def previewScaleVec (mn mx : Vec3) : Vec3 :=
  ⟨2 / maxExtent mn mx, 2 / maxExtent mn mx, 2 / maxExtent mn mx⟩

/-- Materials list built by Inspector::showMesh: one material pushed per
iteration of the loop bounded by std::max(1, indexSets). -/
def previewMats {α : Type} (mat : α) (idxSets : ℕ) : List α :=
  List.replicate (max 1 idxSets) mat

/-- Modelled from the spec: the shape check of RenderPass::draw, whose
implementation (RenderPass.cpp) is not part of the excerpt. The materials
list length must equal the mesh index set count, or 1 when the mesh has no
index sets; otherwise the draw fails with a shape mismatch error. -/
def drawShapeOk (materialsLen idxSets : ℕ) : Bool :=
  materialsLen == (if idxSets == 0 then 1 else idxSets)

/-- State for the shader edit view bookkeeping: the ids of the live shaders
in the renderer registry and the weak reference held by the Inspector
shaderEdit member. -/
structure EditorState where
  alive : List ℕ
  shaderEdit : Option ℕ
  deriving DecidableEq

/-- Weak pointer resolution (std::weak_ptr::lock): yields the shader only
while it is still alive, none once it has been destroyed. -/
def lockWeak (w : Option ℕ) (alive : List ℕ) : Option ℕ :=
  w.bind fun id => if id ∈ alive then some id else none

/-- Edit button of Inspector::showShader: stores a weak reference to the
shader in shaderEdit. -/
def clickEdit (st : EditorState) (id : ℕ) : EditorState :=
  { st with shaderEdit := some id }

/-- Destruction of a shader: it disappears from the live registry. -/
def destroyShader (st : EditorState) (id : ℕ) : EditorState :=
  { st with alive := st.alive.filter (fun a => a ≠ id) }

/-- Tail of Inspector::gui: the edit view is rendered for the locked shader
only when the weak reference still resolves; no failure path exists. -/
def guiEditView (st : EditorState) : Option ℕ :=
  lockWeak st.shaderEdit st.alive

/-- Items emitted by the registry sections of Inspector::gui. -/
inductive GuiItem where
  | label (text : String)
  | panel (id : ℕ)
  deriving DecidableEq

/-- Shaders section of Inspector::gui: one panel per registered shader,
then the placeholder label when the registry is empty. -/
def shaderSection (shaders : List ℕ) : List GuiItem :=
  shaders.map GuiItem.panel ++ (if shaders.isEmpty then [GuiItem.label "No shaders"] else [])

/-- Textures section of Inspector::gui. -/
def textureSection (textures : List ℕ) : List GuiItem :=
  textures.map GuiItem.panel ++ (if textures.isEmpty then [GuiItem.label "No textures"] else [])

/-- Meshes section of Inspector::gui. -/
def meshSection (meshes : List ℕ) : List GuiItem :=
  meshes.map GuiItem.panel ++ (if meshes.isEmpty then [GuiItem.label "No meshes"] else [])

/-- Blend modes of BlendType.hpp as used by the shader header and the
inspector switch. -/
inductive BlendType where
  | Disabled
  | AlphaBlending
  | AdditiveBlending
  deriving DecidableEq

/-- Depth and blend state carried by a Shader (Shader.hpp member
initializers). -/
structure ShaderState where
  depthTest : Bool
  depthWrite : Bool
  blend : BlendType
  deriving DecidableEq

/-- Freshly constructed shader: member initializers of Shader.hpp give
depthTest = true, depthWrite = true, blend = Disabled. -/
def mkShader : ShaderState :=
  { depthTest := true, depthWrite := true, blend := BlendType.Disabled }

/-- Modelled from the spec: Shader.cpp is not part of the excerpt; the
header declares setDepthTest(bool) and the spec states the shader
encapsulates its depth and blend state. The setter stores the flag. -/
def setDepthTest (enable : Bool) (s : ShaderState) : ShaderState :=
  { s with depthTest := enable }

/-- Modelled from the spec: setter for the depth write flag declared in
Shader.hpp, implementation not in the excerpt. -/
def setDepthWrite (enable : Bool) (s : ShaderState) : ShaderState :=
  { s with depthWrite := enable }

/-- Modelled from the spec: setter for the blend mode declared in
Shader.hpp, implementation not in the excerpt. -/
def setBlend (blendType : BlendType) (s : ShaderState) : ShaderState :=
  { s with blend := blendType }

/-- Shader source kinds of the shader type combo in Inspector::editShader. -/
inductive ShaderType where
  | Vertex
  | Fragment
  | Geometry
  | TessellationControl
  | TessellationEvaluation
  | NumberOfShaderTypes
  deriving DecidableEq

/-- Label pushed onto activeShaders for each source kind by the switch in
Inspector::editShader; the NumberOfShaderTypes case only logs an error and
pushes nothing. -/
def shaderTypeLabel : ShaderType → Option String
  | ShaderType.Vertex => some "Vertex"
  | ShaderType.Fragment => some "Fragment"
  | ShaderType.Geometry => some "Geometry"
  | ShaderType.TessellationControl => some "TessellationControl"
  | ShaderType.TessellationEvaluation => some "TessellationEvaluation"
  | ShaderType.NumberOfShaderTypes => none

/-- Combo entries built by Inspector::editShader from the shader sources. -/
def activeShaders (sources : List ShaderType) : List String :=
  sources.filterMap shaderTypeLabel

/-- One cycle of the selectedShader bookkeeping in Inspector::editShader:
reset to 0 when the edited shader changed, the combo interaction (the
external UI either writes a selected index or leaves the value), then the
clamp selectedShader = min(selectedShader, activeShaders.size()). Returns
lastSelectedShader paired with the new selectedShader. -/
def editShaderStep (sources : List ShaderType) (shaderChanged : Bool)
    (combo : Option ℤ) (sel : ℤ) : ℤ × ℤ :=
  let sel0 := if shaderChanged then 0 else sel
  let lastSel := sel0
  let sel1 := combo.getD sel0
  let sel2 := min sel1 ((activeShaders sources).length : ℤ)
  (lastSel, sel2)

/-- C4: for every mesh bounding box with nonzero largest extent, the preview
auto-fit of Inspector::showMesh uses the uniform scale 2 / maxExtent on all
three axes and the offset -center, and scale times half the largest extent
equals exactly 1. -/
theorem C4_preview_autofit (mn mx : Vec3) (h : maxExtent mn mx ≠ 0) :
    previewScaleVec mn mx = ⟨2 / maxExtent mn mx, 2 / maxExtent mn mx, 2 / maxExtent mn mx⟩ ∧
    previewOffset mn mx = ⟨-(boundsCenter mn mx).x, -(boundsCenter mn mx).y, -(boundsCenter mn mx).z⟩ ∧
    (previewScaleVec mn mx).x * (maxExtent mn mx / 2) = 1 := by
  refine ⟨rfl, rfl, ?_⟩
  simp only [previewScaleVec]
  field_simp

/-- Witness for C4 at the example of the spec: min = (-2,-1,-1),
max = (2,1,1) gives maxExtent 4 and scale 1/2. -/
theorem C4_preview_autofit_witness :
    maxExtent ⟨-2, -1, -1⟩ ⟨2, 1, 1⟩ ≠ 0 ∧
    (previewScaleVec ⟨-2, -1, -1⟩ ⟨2, 1, 1⟩).x = 1/2 ∧
    ((previewScaleVec ⟨-2, -1, -1⟩ ⟨2, 1, 1⟩ = ⟨2 / maxExtent ⟨-2, -1, -1⟩ ⟨2, 1, 1⟩, 2 / maxExtent ⟨-2, -1, -1⟩ ⟨2, 1, 1⟩, 2 / maxExtent ⟨-2, -1, -1⟩ ⟨2, 1, 1⟩⟩) ∧
      (previewOffset ⟨-2, -1, -1⟩ ⟨2, 1, 1⟩ = ⟨-(boundsCenter ⟨-2, -1, -1⟩ ⟨2, 1, 1⟩).x, -(boundsCenter ⟨-2, -1, -1⟩ ⟨2, 1, 1⟩).y, -(boundsCenter ⟨-2, -1, -1⟩ ⟨2, 1, 1⟩).z⟩) ∧
      (previewScaleVec ⟨-2, -1, -1⟩ ⟨2, 1, 1⟩).x * (maxExtent ⟨-2, -1, -1⟩ ⟨2, 1, 1⟩ / 2) = 1) := by
  have hmax : maxExtent ⟨-2, -1, -1⟩ ⟨2, 1, 1⟩ = 4 := by
    norm_num [maxExtent, meshExtent, max_def]
  refine ⟨by rw [hmax]; norm_num, by norm_num [previewScaleVec, hmax],
    C4_preview_autofit ⟨-2, -1, -1⟩ ⟨2, 1, 1⟩ (by rw [hmax]; norm_num)⟩

/-- C5: the materials list built by Inspector::showMesh has length
max(1, indexSetCount), which always passes the shape check of
RenderPass::draw, so the mismatch failure branch is unreachable from the
preview path. -/
theorem C5_preview_materials_shape {α : Type} (mat : α) (idxSets : ℕ) :
    (previewMats mat idxSets).length = max 1 idxSets ∧
    drawShapeOk (previewMats mat idxSets).length idxSets = true := by
  constructor
  · simp [previewMats]
  · simp only [previewMats, drawShapeOk, List.length_replicate]
    rcases Nat.eq_zero_or_pos idxSets with h | h
    · subst h; decide
    · have h1 : max 1 idxSets = idxSets := Nat.max_eq_right h
      have h2 : (idxSets == 0) = false := by
        simp [Nat.pos_iff_ne_zero.mp h]
      rw [h1, h2]
      simp

/-- C6: while the shader is alive the open edit view stays keyed to it
through the weak reference; once the shader is destroyed the next gui cycle
renders no edit view and raises no error (the view silently closes). -/
theorem C6_edit_view_weak_ref (st : EditorState) (id : ℕ) (h : id ∈ st.alive) :
    guiEditView (clickEdit st id) = some id ∧
    guiEditView (destroyShader (clickEdit st id) id) = none := by
  constructor
  · simp [guiEditView, clickEdit, lockWeak, h]
  · simp [guiEditView, clickEdit, destroyShader, lockWeak, List.mem_filter]

/-- Witness for C6 at a concrete state: one live shader with id 5 and no
view open. -/
theorem C6_edit_view_weak_ref_witness :
    guiEditView (clickEdit ⟨[5], none⟩ 5) = some 5 ∧
    guiEditView (destroyShader (clickEdit ⟨[5], none⟩ 5) 5) = none :=
  C6_edit_view_weak_ref ⟨[5], none⟩ 5 (by decide)

/-- C8: with an empty shader, texture or mesh registry, the corresponding
gui section renders exactly the placeholder label and iterates over
nothing; the section functions are total, so no throw or abort occurs. -/
theorem C8_empty_registry_placeholders :
    shaderSection [] = [GuiItem.label "No shaders"] ∧
    textureSection [] = [GuiItem.label "No textures"] ∧
    meshSection [] = [GuiItem.label "No meshes"] := by
  refine ⟨rfl, rfl, rfl⟩

/-- C9: a newly constructed shader starts with depth test enabled, depth
write enabled and blending disabled, and each of the three setters updates
exactly its own piece of state, leaving the other two unchanged. -/
theorem C9_shader_initial_state :
    (mkShader.depthTest = true ∧ mkShader.depthWrite = true ∧ mkShader.blend = BlendType.Disabled) ∧
    (∀ (s : ShaderState) (b : Bool),
      (setDepthTest b s).depthTest = b ∧
      (setDepthTest b s).depthWrite = s.depthWrite ∧
      (setDepthTest b s).blend = s.blend) ∧
    (∀ (s : ShaderState) (b : Bool),
      (setDepthWrite b s).depthWrite = b ∧
      (setDepthWrite b s).depthTest = s.depthTest ∧
      (setDepthWrite b s).blend = s.blend) ∧
    (∀ (s : ShaderState) (t : BlendType),
      (setBlend t s).blend = t ∧
      (setBlend t s).depthTest = s.depthTest ∧
      (setBlend t s).depthWrite = s.depthWrite) := by
  refine ⟨⟨rfl, rfl, rfl⟩, fun s b => ⟨rfl, rfl, rfl⟩, fun s b => ⟨rfl, rfl, rfl⟩,
    fun s t => ⟨rfl, rfl, rfl⟩⟩

/-- Truncated modulus of a negation: C++ int modulus satisfies
(-a) % b = -(a % b). -/
theorem neg_tmod_eq (a b : ℤ) : Int.tmod (-a) b = -(Int.tmod a b) := by
  rw [Int.tmod_def, Int.tmod_def, Int.neg_tdiv]
  ring

/-- C2: with 0 <= frameCount, 0 < frames and 0 <= i < frames, the display
remap of the Performance loop lands exactly at position i, so the value of
slot (frameCount + i) mod frames is plotted at position i and the sequence
appears in chronological order starting at the oldest valid slot. -/
theorem C2_display_remap_identity (frames frameCount i : ℤ)
    (hf : 0 < frames) (hc : 0 ≤ frameCount) (h0 : 0 ≤ i) (hi : i < frames) :
    displaySlot frameCount frames i = i := by
  have hne : frames ≠ 0 := ne_of_gt hf
  unfold displaySlot
  rw [neg_tmod_eq, @Int.tmod_eq_emod frameCount frames hc hf.le,
    @Int.tmod_eq_emod (frameCount + i) frames (by omega) hf.le]
  have hr0 : 0 ≤ frameCount % frames := Int.emod_nonneg _ hne
  have hrf : frameCount % frames < frames := Int.emod_lt_of_pos _ hf
  have hq : frames * (frameCount / frames) + frameCount % frames = frameCount :=
    Int.ediv_add_emod _ _
  have e1 : (frameCount + i) % frames = (frameCount % frames + i) % frames := by
    have h2 : frameCount + i = (frameCount % frames + i) + frames * (frameCount / frames) := by
      omega
    rw [h2, Int.add_mul_emod_self_left]
  rw [e1]
  rcases lt_or_le (frameCount % frames + i) frames with hcase | hcase
  · have e2 : (frameCount % frames + i) % frames = frameCount % frames + i :=
      Int.emod_eq_of_lt (by omega) hcase
    rw [e2]
    have e3 : -(frameCount % frames) + (frameCount % frames + i) + frames = i + frames := by
      ring
    rw [e3, @Int.tmod_eq_emod (i + frames) frames (by omega) hf.le, Int.add_emod_self,
      Int.emod_eq_of_lt h0 hi]
  · have e2 : (frameCount % frames + i) % frames = frameCount % frames + i - frames := by
      have h3 : frameCount % frames + i = (frameCount % frames + i - frames) + frames := by
        ring
      conv_lhs => rw [h3]
      rw [Int.add_emod_self]
      exact @Int.emod_eq_of_lt (frameCount % frames + i - frames) frames (by omega) (by omega)
    rw [e2]
    have e3 : -(frameCount % frames) + (frameCount % frames + i - frames) + frames = i := by
      ring
    rw [e3]
    exact Int.tmod_eq_of_lt h0 hi

/-- Witness for C2 at frames = 60, frameCount = 125, i = 7. -/
theorem C2_display_remap_identity_witness :
    (0 : ℤ) < 60 ∧ (0 : ℤ) ≤ 125 ∧ (0 : ℤ) ≤ 7 ∧ (7 : ℤ) < 60 ∧
    displaySlot 125 60 7 = 7 :=
  ⟨by decide, by decide, by decide, by decide,
    C2_display_remap_identity 60 125 7 (by decide) (by decide) (by decide) (by decide)⟩

/-- Full description of a burst of getTmpTexture() calls: provided
usedTextures does not exceed the pool size, the k-th call returns the cached
texture at index usedTextures + k while that is in the pool, and otherwise a
fresh texture named by the pool size at that moment; the pool is extended by
exactly the fresh textures and usedTextures advances by the number of
calls. -/
theorem requestN_spec (M : ℕ) (s : Inspector)
    (h : s.usedTextures ≤ s.offscreenTextures.length) :
    requestN M s =
      ((List.range M).map (fun k =>
        if s.usedTextures + k < s.offscreenTextures.length then
          s.offscreenTextures.getD (s.usedTextures + k) 0
        else s.usedTextures + k),
       { s with
         usedTextures := s.usedTextures + M
         offscreenTextures := s.offscreenTextures ++
           List.range' s.offscreenTextures.length
             (s.usedTextures + M - s.offscreenTextures.length) }) := by
  induction M generalizing s with
  | zero =>
    have h0 : s.usedTextures - s.offscreenTextures.length = 0 := by omega
    simp [requestN, h0]
  | succ M ih =>
    rcases lt_or_le s.usedTextures s.offscreenTextures.length with hlt | hge
    · have hget : getTmpTexture s =
        (s.offscreenTextures.getD s.usedTextures 0,
          { s with usedTextures := s.usedTextures + 1 }) := by
        simp [getTmpTexture, hlt]
      have ih1 := ih { s with usedTextures := s.usedTextures + 1 } (by simpa using hlt)
      simp only [requestN, hget, ih1]
      rw [Prod.mk.injEq]
      refine ⟨?_, ?_⟩
      · rw [List.range_succ_eq_map, List.map_cons, List.map_map]
        congr 1
        · simp [hlt]
        · congr 1
          funext k
          have he : s.usedTextures + 1 + k = s.usedTextures + (k + 1) := by omega
          simp [Function.comp, he]
      · have he1 : s.usedTextures + 1 + M = s.usedTextures + (M + 1) := by omega
        rw [he1]
    · have hu : s.usedTextures = s.offscreenTextures.length := by omega
      have hget : getTmpTexture s =
        (s.offscreenTextures.length,
          { s with
            offscreenTextures := s.offscreenTextures ++ [s.offscreenTextures.length]
            usedTextures := s.usedTextures + 1 }) := by
        simp [getTmpTexture, Nat.not_lt.mpr hge]
      have ih1 := ih
        { s with
          offscreenTextures := s.offscreenTextures ++ [s.offscreenTextures.length]
          usedTextures := s.usedTextures + 1 }
        (by simp [hu])
      simp only [requestN, hget, ih1]
      rw [Prod.mk.injEq]
      refine ⟨?_, ?_⟩
      · rw [List.range_succ_eq_map, List.map_cons, List.map_map]
        congr 1
        · simp [hu]
        · congr 1
          funext k
          have hlen : (s.offscreenTextures ++ [s.offscreenTextures.length]).length =
              s.offscreenTextures.length + 1 := by simp
          have c1 : ¬(s.usedTextures + 1 + k < s.offscreenTextures.length + 1) := by
            omega
          have c2 : ¬(s.usedTextures + (k + 1) < s.offscreenTextures.length) := by
            omega
          simp only [Function.comp, hlen]
          rw [if_neg c1]
          simp only [if_neg c2]
          omega
      · have hlen : (s.offscreenTextures ++ [s.offscreenTextures.length]).length =
            s.offscreenTextures.length + 1 := by simp
        rw [hlen]
        have he1 : s.usedTextures + 1 + M = s.usedTextures + (M + 1) := by omega
        rw [he1]
        have he2 : s.usedTextures + (M + 1) - (s.offscreenTextures.length + 1) =
            s.usedTextures + (M + 1) - s.offscreenTextures.length - 1 := by omega
        rw [he2]
        have he3 : s.usedTextures + (M + 1) - s.offscreenTextures.length =
            (s.usedTextures + (M + 1) - s.offscreenTextures.length - 1) + 1 := by
          omega
        rw [List.append_assoc]
        conv_rhs => rw [he3, List.range'_succ]
        rfl

/-- C3 counterexample to the claim as stated: a pool holding N = 1 cached
texture at the start of the frame, hit by M = 3 requests, allocates 2 new
textures, which exceeds N = 1, refuting that at most N new textures are
allocated for the remainder. -/
theorem C3_counterexample :
    (requestN 3 { mkInspector 1 0 with offscreenTextures := [7] }).2.offscreenTextures.length - 1 = 2 ∧
    ¬((requestN 3 { mkInspector 1 0 with offscreenTextures := [7] }).2.offscreenTextures.length - 1 ≤ 1) := by
  decide

/-- C3 amended: with N cached textures and usedTextures = 0 at the start of
the frame, M > N requests within the frame return the N cached textures by
index for the first N requests, and each further request allocates exactly
one fresh texture, so exactly M - N new textures are allocated and the pool
ends the frame holding M textures. -/
theorem C3_scratch_pool_reuse (s : Inspector) (M : ℕ)
    (h0 : s.usedTextures = 0) (hM : s.offscreenTextures.length < M) :
    (∀ i, i < s.offscreenTextures.length →
      (requestN M s).1.getD i 0 = s.offscreenTextures.getD i 0) ∧
    (requestN M s).2.offscreenTextures = s.offscreenTextures ++
      List.range' s.offscreenTextures.length (M - s.offscreenTextures.length) ∧
    (requestN M s).2.offscreenTextures.length = M := by
  have hspec := requestN_spec M s (by omega)
  refine ⟨?_, ?_, ?_⟩
  · intro i hi
    rw [hspec]
    have hiM : i < M := by omega
    simp only [List.getD_eq_getElem?_getD, List.getElem?_map, List.getElem?_range hiM,
      Option.map_some, Option.getD_some]
    simp [h0, hi]
  · rw [hspec]
    simp [h0]
  · rw [hspec]
    simp [h0]
    omega

/-- Capacity field is never changed by update(). -/
theorem frames_runUpdates (s : Inspector) (l : List (ℚ × RenderStats)) :
    (runUpdates s l).frames = s.frames := by
  induction l generalizing s with
  | nil => rfl
  | cons p rest ih => exact (ih (update s p.1 p.2)).trans rfl

/-- Frame counter advances by exactly one per update() call. -/
theorem frameCount_runUpdates (s : Inspector) (l : List (ℚ × RenderStats)) :
    (runUpdates s l).frameCount = s.frameCount + l.length := by
  induction l generalizing s with
  | nil => rfl
  | cons p rest ih =>
    have h := ih (update s p.1 p.2)
    simp only [runUpdates, List.foldl_cons] at h ⊢
    rw [h]
    simp [update]
    omega

/-- Last observed clock value after a sequence of update() calls. -/
theorem lastTick_runUpdates (s : Inspector) (l : List (ℚ × RenderStats)) :
    (runUpdates s l).lastTick = (l.map Prod.fst).getLastD s.lastTick := by
  induction l generalizing s with
  | nil => rfl
  | cons p rest ih =>
    have h := ih (update s p.1 p.2)
    simp only [runUpdates, List.foldl_cons] at h ⊢
    rw [h, List.map_cons, List.getLastD_cons]
    rfl

/-- C7: each update() call snapshots the stats record and the clock delta
into slot frameCount mod frames using the frame counter value from before
the call, then increments the counter, so the slot written on the f-th call
(0-based) is f mod frames and frameCount equals f after f calls. -/
theorem C7_update_slot_and_counter (frames : ℕ) (t0 : ℚ)
    (inputs : List (ℚ × RenderStats)) (tick : ℚ) (rs : RenderStats) :
    (runUpdates (mkInspector frames t0) inputs).frameCount = inputs.length ∧
    (update (runUpdates (mkInspector frames t0) inputs) tick rs).milliseconds
      (inputs.length % frames) =
      tick - (runUpdates (mkInspector frames t0) inputs).lastTick ∧
    (update (runUpdates (mkInspector frames t0) inputs) tick rs).stats
      (inputs.length % frames) = rs ∧
    (update (runUpdates (mkInspector frames t0) inputs) tick rs).frameCount =
      inputs.length + 1 := by
  have h1 : (runUpdates (mkInspector frames t0) inputs).frameCount = inputs.length := by
    rw [frameCount_runUpdates]
    simp [mkInspector]
  have h2 : (runUpdates (mkInspector frames t0) inputs).frames = frames := by
    rw [frames_runUpdates]
    rfl
  refine ⟨h1, ?_, ?_, ?_⟩
  · simp [update, h1, h2]
  · simp [update, h1, h2]
  · simp [update, h1]

/-- C10: through a cycle of Inspector::editShader on a shader with at least
one source, given that the combo interaction only ever writes a selected
index of the entries it displays, both lastSelectedShader and the clamped
selectedShader are valid indices into shaderCode, whose length equals the
number of shader sources. -/
theorem C10_selected_shader_in_bounds (sources : List ShaderType)
    (shaderChanged : Bool) (combo : Option ℤ) (sel : ℤ)
    (hs : sources ≠ [])
    (hsel0 : 0 ≤ sel) (hsel1 : sel < (sources.length : ℤ))
    (hcombo : ∀ i, combo = some i → 0 ≤ i ∧ i < ((activeShaders sources).length : ℤ)) :
    0 ≤ (editShaderStep sources shaderChanged combo sel).1 ∧
    (editShaderStep sources shaderChanged combo sel).1 < (sources.length : ℤ) ∧
    0 ≤ (editShaderStep sources shaderChanged combo sel).2 ∧
    (editShaderStep sources shaderChanged combo sel).2 < (sources.length : ℤ) := by
  have hA : (activeShaders sources).length ≤ sources.length :=
    List.length_filterMap_le _ _
  have hlen : 0 < sources.length := List.length_pos.mpr hs
  cases combo with
  | none =>
    cases shaderChanged <;>
      simp only [editShaderStep, Option.getD_none, Option.getD_some,
        if_true, if_false, Bool.false_eq_true, ite_false, ite_true] <;>
      refine ⟨by omega, by omega, ?_, ?_⟩ <;>
      · rw [min_def]
        split <;> omega
  | some i =>
    obtain ⟨hi0, hi1⟩ := hcombo i rfl
    cases shaderChanged <;>
      simp only [editShaderStep, Option.getD_none, Option.getD_some,
        if_true, if_false, Bool.false_eq_true, ite_false, ite_true] <;>
      refine ⟨by omega, by omega, ?_, ?_⟩ <;>
      · rw [min_def]
        split <;> omega

/-- Witness for C10: a vertex plus fragment shader, no shader switch, the
combo selecting index 1. -/
theorem C10_selected_shader_in_bounds_witness :
    ([ShaderType.Vertex, ShaderType.Fragment] ≠ ([] : List ShaderType)) ∧
    ((0 : ℤ) ≤ 0 ∧ (0 : ℤ) < (([ShaderType.Vertex, ShaderType.Fragment] : List ShaderType).length : ℤ)) ∧
    (0 ≤ (editShaderStep [ShaderType.Vertex, ShaderType.Fragment] false (some 1) 0).1 ∧
      (editShaderStep [ShaderType.Vertex, ShaderType.Fragment] false (some 1) 0).1 < (([ShaderType.Vertex, ShaderType.Fragment] : List ShaderType).length : ℤ) ∧
      0 ≤ (editShaderStep [ShaderType.Vertex, ShaderType.Fragment] false (some 1) 0).2 ∧
      (editShaderStep [ShaderType.Vertex, ShaderType.Fragment] false (some 1) 0).2 < (([ShaderType.Vertex, ShaderType.Fragment] : List ShaderType).length : ℤ)) :=
  ⟨by decide, ⟨by decide, by decide⟩,
    C10_selected_shader_in_bounds [ShaderType.Vertex, ShaderType.Fragment] false (some 1) 0
      (by decide) (by decide) (by decide)
      (fun i h => by
        have hi : i = 1 := by
          have := Option.some.inj h
          omega
        subst hi
        refine ⟨by decide, by decide⟩)⟩

/-- Length of the recorded delta list equals the number of calls. -/
theorem deltasFrom_length (t0 : ℚ) (ts : List ℚ) :
    (deltasFrom t0 ts).length = ts.length := by
  induction ts generalizing t0 with
  | nil => rfl
  | cons t rest ih => simp [deltasFrom, ih]

/-- Appending one more observed clock value appends one more delta. -/
theorem deltasFrom_append (t0 : ℚ) (ts : List ℚ) (t : ℚ) :
    deltasFrom t0 (ts ++ [t]) = deltasFrom t0 ts ++ [t - ts.getLastD t0] := by
  induction ts generalizing t0 with
  | nil => simp [deltasFrom]
  | cons a rest ih =>
    rw [List.cons_append]
    show (a - t0) :: deltasFrom a (rest ++ [t]) =
      ((a - t0) :: deltasFrom a rest) ++ [t - (a :: rest).getLastD t0]
    rw [ih, List.getLastD_cons, List.cons_append]

/-- Characterization of the milliseconds ring buffer after f update() calls:
slot j holds the delta of the most recent call that wrote slot j, namely
call number f - 1 - ((f - 1 - j) mod frames), and holds its initial zero
when no call has written it. -/
theorem milliseconds_runUpdates (frames : ℕ) (hf : 0 < frames) (t0 : ℚ)
    (inputs : List (ℚ × RenderStats)) (j : ℕ) (hj : j < frames) :
    (runUpdates (mkInspector frames t0) inputs).milliseconds j =
      if j < inputs.length then
        (deltasFrom t0 (inputs.map Prod.fst)).getD
          (inputs.length - 1 - ((inputs.length - 1 - j) % frames)) 0
      else 0 := by
  induction inputs using List.reverseRecOn with
  | nil => simp [runUpdates, mkInspector]
  | append_singleton l p ih =>
    have hrun : runUpdates (mkInspector frames t0) (l ++ [p]) =
        update (runUpdates (mkInspector frames t0) l) p.1 p.2 := by
      simp [runUpdates, List.foldl_append]
    have hfc : (runUpdates (mkInspector frames t0) l).frameCount = l.length := by
      rw [frameCount_runUpdates]
      simp [mkInspector]
    have hfr : (runUpdates (mkInspector frames t0) l).frames = frames := by
      rw [frames_runUpdates]
      rfl
    have hlast : (runUpdates (mkInspector frames t0) l).lastTick =
        (l.map Prod.fst).getLastD t0 := by
      rw [lastTick_runUpdates]
      rfl
    have hmap : (l ++ [p]).map Prod.fst = l.map Prod.fst ++ [p.1] := by simp
    have hvs : deltasFrom t0 ((l ++ [p]).map Prod.fst) =
        deltasFrom t0 (l.map Prod.fst) ++ [p.1 - (l.map Prod.fst).getLastD t0] := by
      rw [hmap, deltasFrom_append]
    have hvslen : (deltasFrom t0 (l.map Prod.fst)).length = l.length := by
      rw [deltasFrom_length, List.length_map]
    have hlen : (l ++ [p]).length = l.length + 1 := by simp
    rw [hrun]
    by_cases hslot : j = l.length % frames
    · have hLHS : (update (runUpdates (mkInspector frames t0) l) p.1 p.2).milliseconds j =
          p.1 - (runUpdates (mkInspector frames t0) l).lastTick := by
        simp [update, hfc, hfr, hslot]
      rw [hLHS, hlast, hvs, hlen]
      have hjle : l.length % frames ≤ l.length := Nat.mod_le _ _
      have hjlt : j < l.length + 1 := by omega
      rw [if_pos hjlt]
      have hq : frames * (l.length / frames) + l.length % frames = l.length :=
        Nat.div_add_mod _ _
      have h2 : l.length - j = frames * (l.length / frames) := by omega
      have hidx : l.length + 1 - 1 - ((l.length + 1 - 1 - j) % frames) = l.length := by
        have h0 : l.length + 1 - 1 - j = l.length - j := by omega
        rw [h0, h2, Nat.mul_mod_right]
        omega
      rw [hidx, List.getD_eq_getElem?_getD,
        show l.length = (deltasFrom t0 (l.map Prod.fst)).length from hvslen.symm,
        List.getElem?_concat_length]
      rfl
    · have hLHS : (update (runUpdates (mkInspector frames t0) l) p.1 p.2).milliseconds j =
          (runUpdates (mkInspector frames t0) l).milliseconds j := by
        simp [update, hfc, hfr, hslot]
      rw [hLHS, ih, hvs, hlen]
      rcases lt_trichotomy j l.length with hjf | hjf | hjf
      · rw [if_pos hjf, if_pos (by omega)]
        have hr_ne : (l.length - j) % frames ≠ 0 := by
          intro h0
          apply hslot
          have hd : l.length = j + (l.length - j) := by omega
          have hmm : l.length % frames = j := by
            conv_lhs => rw [hd]
            rw [Nat.add_mod, h0, Nat.add_zero, Nat.mod_mod, Nat.mod_eq_of_lt hj]
          omega
        have hq : frames * ((l.length - j) / frames) + (l.length - j) % frames =
            l.length - j := Nat.div_add_mod _ _
        have hr1 : 1 ≤ (l.length - j) % frames := Nat.pos_of_ne_zero hr_ne
        have hrlt : (l.length - j) % frames < frames := Nat.mod_lt _ hf
        have hm1 : (l.length - 1 - j) % frames = (l.length - j) % frames - 1 := by
          have he : l.length - 1 - j =
              frames * ((l.length - j) / frames) + ((l.length - j) % frames - 1) := by
            omega
          rw [he, Nat.mul_add_mod, Nat.mod_eq_of_lt (by omega)]
        have hidx : l.length + 1 - 1 - ((l.length + 1 - 1 - j) % frames) =
            l.length - 1 - ((l.length - 1 - j) % frames) := by
          have h0 : l.length + 1 - 1 - j = l.length - j := by omega
          rw [h0, hm1]
          omega
        rw [hidx]
        have hidx2 : l.length - 1 - ((l.length - 1 - j) % frames) <
            (deltasFrom t0 (l.map Prod.fst)).length := by
          rw [hvslen]
          omega
        rw [List.getD_eq_getElem?_getD, List.getD_eq_getElem?_getD,
          List.getElem?_append_left hidx2]
      · exfalso
        apply hslot
        have hmm : l.length % frames = l.length := Nat.mod_eq_of_lt (by omega)
        omega
      · rw [if_neg (by omega), if_neg (by omega)]

/-- Value sitting in the slot about to be overwritten by the next update()
call: zero while the buffer is still filling, and the delta recorded frames
calls ago once it has wrapped. -/
theorem milliseconds_slot (frames : ℕ) (hf : 0 < frames) (t0 : ℚ)
    (inputs : List (ℚ × RenderStats)) :
    (runUpdates (mkInspector frames t0) inputs).milliseconds (inputs.length % frames) =
      if inputs.length < frames then 0
      else (deltasFrom t0 (inputs.map Prod.fst)).getD (inputs.length - frames) 0 := by
  have hj : inputs.length % frames < frames := Nat.mod_lt _ hf
  rw [milliseconds_runUpdates frames hf t0 inputs _ hj]
  rcases lt_or_le inputs.length frames with hcase | hcase
  · rw [if_pos hcase, Nat.mod_eq_of_lt hcase, if_neg (lt_irrefl _)]
  · rw [if_neg (show ¬(inputs.length < frames) by omega),
      if_pos (show inputs.length % frames < inputs.length by omega)]
    have hq : frames * (inputs.length / frames) + inputs.length % frames = inputs.length :=
      Nat.div_add_mod _ _
    have hq1 : 1 ≤ inputs.length / frames := by
      rcases Nat.eq_zero_or_pos (inputs.length / frames) with h0 | h0
      · rw [h0] at hq
        omega
      · exact h0
    have hmul : frames * (inputs.length / frames) =
        frames * (inputs.length / frames - 1) + frames := by
      have h1 : inputs.length / frames = (inputs.length / frames - 1) + 1 := by omega
      conv_lhs => rw [h1]
      rw [Nat.mul_add, Nat.mul_one]
    have he : inputs.length - 1 - inputs.length % frames =
        frames * (inputs.length / frames - 1) + (frames - 1) := by omega
    have hidx : inputs.length - 1 - ((inputs.length - 1 - inputs.length % frames) % frames) =
        inputs.length - frames := by
      rw [he, Nat.mul_add_mod, Nat.mod_eq_of_lt (by omega)]
      omega
    rw [hidx]

/-- Updating one slot of the ring changes the slot sum by the difference of
the new and old values. -/
theorem slotSum_write (frames : ℕ) (g : ℕ → ℚ) (slot : ℕ)
    (hslot : slot < frames) (v : ℚ) :
    slotSum frames (fun j => if j = slot then v else g j) =
      slotSum frames g - g slot + v := by
  have hupd : (fun j => if j = slot then v else g j) = Function.update g slot v := by
    funext x
    rw [Function.update_apply]
  rw [hupd]
  unfold slotSum
  rw [Finset.sum_update_of_mem (Finset.mem_range.mpr hslot),
    Finset.sum_sdiff_eq_sub (Finset.singleton_subset_iff.mpr (Finset.mem_range.mpr hslot)),
    Finset.sum_singleton]
  ring

/-- Slot sum of the milliseconds ring buffer after f update() calls equals
the sum of the last min(f, frames) recorded deltas: the zero-initialized
slots that were never written contribute nothing. -/
theorem slotSum_runUpdates (frames : ℕ) (hf : 0 < frames) (t0 : ℚ)
    (inputs : List (ℚ × RenderStats)) :
    slotSum frames (runUpdates (mkInspector frames t0) inputs).milliseconds =
      ((deltasFrom t0 (inputs.map Prod.fst)).drop (inputs.length - frames)).sum := by
  induction inputs using List.reverseRecOn with
  | nil => simp [slotSum, runUpdates, mkInspector, deltasFrom]
  | append_singleton l p ih =>
    have hrun : runUpdates (mkInspector frames t0) (l ++ [p]) =
        update (runUpdates (mkInspector frames t0) l) p.1 p.2 := by
      simp [runUpdates, List.foldl_append]
    have hfc : (runUpdates (mkInspector frames t0) l).frameCount = l.length := by
      rw [frameCount_runUpdates]
      simp [mkInspector]
    have hfr : (runUpdates (mkInspector frames t0) l).frames = frames := by
      rw [frames_runUpdates]
      rfl
    have hlast : (runUpdates (mkInspector frames t0) l).lastTick =
        (l.map Prod.fst).getLastD t0 := by
      rw [lastTick_runUpdates]
      rfl
    have hvs : deltasFrom t0 ((l ++ [p]).map Prod.fst) =
        deltasFrom t0 (l.map Prod.fst) ++ [p.1 - (l.map Prod.fst).getLastD t0] := by
      rw [show (l ++ [p]).map Prod.fst = l.map Prod.fst ++ [p.1] by simp, deltasFrom_append]
    have hvslen : (deltasFrom t0 (l.map Prod.fst)).length = l.length := by
      rw [deltasFrom_length, List.length_map]
    have hlen2 : (l ++ [p]).length = l.length + 1 := by simp
    rw [hrun]
    have hms : (update (runUpdates (mkInspector frames t0) l) p.1 p.2).milliseconds =
        fun j => if j = l.length % frames then
          p.1 - (runUpdates (mkInspector frames t0) l).lastTick
        else (runUpdates (mkInspector frames t0) l).milliseconds j := by
      funext j
      simp [update, hfc, hfr]
    rw [hms, slotSum_write frames _ _ (Nat.mod_lt _ hf) _, ih,
      milliseconds_slot frames hf t0 l, hvs, hlast, hlen2]
    rcases lt_or_le l.length frames with hcase | hcase
    · rw [if_pos hcase]
      have h1 : l.length - frames = 0 := by omega
      have h2 : l.length + 1 - frames = 0 := by omega
      rw [h1, h2, List.drop_zero, List.drop_zero, List.sum_append]
      simp
    · rw [if_neg (by omega)]
      have hdrop : ((deltasFrom t0 (l.map Prod.fst)) ++
          [p.1 - (l.map Prod.fst).getLastD t0]).drop (l.length + 1 - frames) =
          (deltasFrom t0 (l.map Prod.fst)).drop (l.length + 1 - frames) ++
            [p.1 - (l.map Prod.fst).getLastD t0] :=
        List.drop_append_of_le_length (by rw [hvslen]; omega)
      rw [hdrop, List.sum_append]
      have hidx : l.length - frames < (deltasFrom t0 (l.map Prod.fst)).length := by
        rw [hvslen]
        omega
      have h3 : l.length + 1 - frames = l.length - frames + 1 := by omega
      rw [h3, List.getD_eq_getElem _ _ hidx, List.drop_eq_getElem_cons hidx, List.sum_cons]
      simp

/-- Witness for the amended C3 at the concrete pool of the counterexample:
one cached texture, three requests in the frame. -/
theorem C3_scratch_pool_reuse_witness :
    ({ mkInspector 1 0 with offscreenTextures := [7] } : Inspector).usedTextures = 0 ∧
    ({ mkInspector 1 0 with offscreenTextures := [7] } : Inspector).offscreenTextures.length < 3 ∧
    ((∀ i, i < ({ mkInspector 1 0 with offscreenTextures := [7] } : Inspector).offscreenTextures.length →
      (requestN 3 ({ mkInspector 1 0 with offscreenTextures := [7] } : Inspector)).1.getD i 0 =
        ({ mkInspector 1 0 with offscreenTextures := [7] } : Inspector).offscreenTextures.getD i 0) ∧
      (requestN 3 ({ mkInspector 1 0 with offscreenTextures := [7] } : Inspector)).2.offscreenTextures =
        ({ mkInspector 1 0 with offscreenTextures := [7] } : Inspector).offscreenTextures ++
          List.range'
            ({ mkInspector 1 0 with offscreenTextures := [7] } : Inspector).offscreenTextures.length
            (3 - ({ mkInspector 1 0 with offscreenTextures := [7] } : Inspector).offscreenTextures.length) ∧
      (requestN 3 ({ mkInspector 1 0 with offscreenTextures := [7] } : Inspector)).2.offscreenTextures.length = 3) :=
  ⟨rfl, by decide,
    C3_scratch_pool_reuse ({ mkInspector 1 0 with offscreenTextures := [7] } : Inspector) 3
      rfl (by decide)⟩

/-- Adding a multiple-of-the-capacity style offset and reducing leaves a
reduced slot index unchanged. -/
theorem rot_mod_cancel (n c x : ℕ) (hn : 0 < n) (hx : x < n) :
    (x + (c + (n - c % n))) % n = x := by
  have hr : c % n < n := Nat.mod_lt _ hn
  have hq : n * (c / n) + c % n = c := Nat.div_add_mod c n
  have he : c + (n - c % n) = n * (c / n) + n := by omega
  rw [he]
  have he2 : x + (n * (c / n) + n) = x + n * (c / n + 1) := by ring
  rw [he2, Nat.add_mul_mod_self_left]
  exact Nat.mod_eq_of_lt hx

/-- Walking all slots starting at any offset visits every slot exactly
once, so the rotated sum equals the plain slot sum. -/
theorem sum_range_rotate (n : ℕ) (hn : 0 < n) (c : ℕ) (g : ℕ → ℚ) :
    ∑ i ∈ Finset.range n, g ((c + i) % n) = ∑ j ∈ Finset.range n, g j := by
  refine Finset.sum_nbij' (fun i => (c + i) % n) (fun j => (j + (n - c % n)) % n)
    ?_ ?_ ?_ ?_ ?_
  · intro a ha
    exact Finset.mem_range.mpr (Nat.mod_lt _ hn)
  · intro a ha
    exact Finset.mem_range.mpr (Nat.mod_lt _ hn)
  · intro a ha
    have hx : a < n := Finset.mem_range.mp ha
    have hr : c % n < n := Nat.mod_lt _ hn
    show ((c + a) % n + (n - c % n)) % n = a
    rw [Nat.mod_add_mod]
    have he : c + a + (n - c % n) = a + (c + (n - c % n)) := by omega
    rw [he, rot_mod_cancel n c a hn hx]
  · intro a ha
    have hx : a < n := Finset.mem_range.mp ha
    have hr : c % n < n := Nat.mod_lt _ hn
    show (c + (a + (n - c % n)) % n) % n = a
    rw [Nat.add_mod_mod]
    have he : c + (a + (n - c % n)) = a + (c + (n - c % n)) := by omega
    rw [he, rot_mod_cancel n c a hn hx]
  · intro a ha
    rfl

/-- C1: after any nonempty sequence of update() calls on an inspector with
positive capacity, the running average displayed by the Performance section
(the rotated sum over all slots divided by min(frameCount, frames)) equals
the arithmetic mean of the last min(f, frames) recorded per-frame deltas;
zero-initialized future slots never skew the average. -/
theorem C1_running_average (frames : ℕ) (t0 : ℚ) (inputs : List (ℚ × RenderStats))
    (hf : 0 < frames) (hne : inputs ≠ []) :
    msAvg (runUpdates (mkInspector frames t0) inputs) =
      ((deltasFrom t0 (inputs.map Prod.fst)).drop (inputs.length - frames)).sum /
        (((deltasFrom t0 (inputs.map Prod.fst)).drop (inputs.length - frames)).length : ℚ) ∧
    ((deltasFrom t0 (inputs.map Prod.fst)).drop (inputs.length - frames)).length =
      min inputs.length frames := by
  have hfc : (runUpdates (mkInspector frames t0) inputs).frameCount = inputs.length := by
    rw [frameCount_runUpdates]
    simp [mkInspector]
  have hfr : (runUpdates (mkInspector frames t0) inputs).frames = frames := by
    rw [frames_runUpdates]
    rfl
  have hvslen : (deltasFrom t0 (inputs.map Prod.fst)).length = inputs.length := by
    rw [deltasFrom_length, List.length_map]
  have hpos : 0 < inputs.length := List.length_pos.mpr hne
  have hdroplen :
      ((deltasFrom t0 (inputs.map Prod.fst)).drop (inputs.length - frames)).length =
        min inputs.length frames := by
    rw [List.length_drop, hvslen]
    omega
  refine ⟨?_, hdroplen⟩
  have hsum : msSum (runUpdates (mkInspector frames t0) inputs) =
      ((deltasFrom t0 (inputs.map Prod.fst)).drop (inputs.length - frames)).sum := by
    simp only [msSum, hfc, hfr]
    rw [sum_range_rotate frames hf inputs.length]
    exact slotSum_runUpdates frames hf t0 inputs
  unfold msAvg
  rw [if_pos (by rw [hfc]; exact hpos)]
  rw [hsum, hfc, hfr, hdroplen]

/-- Witness for C1: capacity 2, clock start 0, three updates observed at
clock values 1, 3 and 6 (deltas 1, 2, 3); the displayed average is the mean
of the last two deltas. -/
theorem C1_running_average_witness :
    0 < 2 ∧
    ([((1 : ℚ), RenderStats.zero), ((3 : ℚ), RenderStats.zero), ((6 : ℚ), RenderStats.zero)] ≠
      ([] : List (ℚ × RenderStats))) ∧
    (msAvg (runUpdates (mkInspector 2 0)
        [((1 : ℚ), RenderStats.zero), ((3 : ℚ), RenderStats.zero), ((6 : ℚ), RenderStats.zero)]) =
      ((deltasFrom 0 ([((1 : ℚ), RenderStats.zero), ((3 : ℚ), RenderStats.zero),
          ((6 : ℚ), RenderStats.zero)].map Prod.fst)).drop
          ([((1 : ℚ), RenderStats.zero), ((3 : ℚ), RenderStats.zero),
            ((6 : ℚ), RenderStats.zero)].length - 2)).sum /
        ((((deltasFrom 0 ([((1 : ℚ), RenderStats.zero), ((3 : ℚ), RenderStats.zero),
          ((6 : ℚ), RenderStats.zero)].map Prod.fst)).drop
          ([((1 : ℚ), RenderStats.zero), ((3 : ℚ), RenderStats.zero),
            ((6 : ℚ), RenderStats.zero)].length - 2)).length : ℕ) : ℚ) ∧
      ((deltasFrom 0 ([((1 : ℚ), RenderStats.zero), ((3 : ℚ), RenderStats.zero),
          ((6 : ℚ), RenderStats.zero)].map Prod.fst)).drop
          ([((1 : ℚ), RenderStats.zero), ((3 : ℚ), RenderStats.zero),
            ((6 : ℚ), RenderStats.zero)].length - 2)).length =
        min [((1 : ℚ), RenderStats.zero), ((3 : ℚ), RenderStats.zero),
          ((6 : ℚ), RenderStats.zero)].length 2) :=
  ⟨by decide, List.cons_ne_nil _ _,
    C1_running_average 2 0
      [((1 : ℚ), RenderStats.zero), ((3 : ℚ), RenderStats.zero), ((6 : ℚ), RenderStats.zero)]
      (by decide) (List.cons_ne_nil _ _)⟩

end SRE
